import Mathlib

/-!
Verification development for the FuturesTrade repository (sj-trading).

The definitions below are a shallow embedding of the Python sources:
- `src/sj_trading/data/quote.py`   (QuoteManager: tick buffer, subscription
  registry, historical gap recovery, K-bar aggregation),
- `src/sj_trading/trading/order.py` (OrderManager),
- `src/sj_trading/strategy/stop_loss.py` (StopLossStrategy, the OCO state
  machine).

Machine floats are modelled as rationals (only comparison, first/last,
min/max and exact sums of the stored values are ever used), timestamps as
naturals, and the external brokerage gateway as explicit parameters
(contract lookup tables, pre-fetched historical data, gateway call traces
recorded as effect lists).
-/

namespace FuturesTrade

/-- A normalized tick row, as stored in the polars DataFrame `_df` of
`QuoteManager` (schema: datetime, code, price, volume, tick_type).  Live
ticks carry the same fields, so the same structure models both the raw
tick objects buffered in `_ticks` and the rows of `_df`. -/
structure Tick where
  code : String
  datetime : Nat
  price : Rat
  volume : Int
  tick_type : Int
deriving DecidableEq

/-- State of `QuoteManager` restricted to a single market type
(`"stk"` or `"fop"`): the subscription set `_subscribed[mt]`, the raw tick
buffer `_ticks[mt]`, the accumulated DataFrame `_df[mt]`, and a trace of
the codes for which `api.quote.subscribe` was invoked (used to count
gateway subscribe calls). -/
structure QMState where
  subscribed : List String
  pending : List Tick
  df : List Tick
  gwSubscribeCalls : List String
deriving DecidableEq

/-- The freshly constructed `QuoteManager`: empty buffers, nothing
subscribed. -/
def initQM : QMState := ⟨[], [], [], []⟩

/-- `QuoteManager._on_tick_handler`: append the pushed tick to the raw
buffer `_ticks[market_type]`. -/
def on_tick_handler (s : QMState) (t : Tick) : QMState :=
  { s with pending := s.pending ++ [t] }

/-- `QuoteManager._get_df`: drain the raw tick buffer into the accumulated
DataFrame (`vstack`) and clear it.  The polars `select` only renames and
casts columns, so a drained tick becomes the row with the same fields. -/
def get_df (s : QMState) : QMState :=
  { s with df := s.df ++ s.pending, pending := [] }

/-- `QuoteManager._recover_ticks`: given the DataFrame `hist` returned by
`fetch_ticks`, return early if it is empty; otherwise drop every
historical row whose datetime is not strictly below the datetime of the
first raw-buffered live tick for `code` (no filtering happens when the raw
buffer holds no tick for `code`), and `vstack` the remainder onto `_df`. -/
def recover_ticks (s : QMState) (code : String) (hist : List Tick) : QMState :=
  if hist.isEmpty then s
  else
    match s.pending.filter (fun t => t.code == code) with
    | [] => { s with df := s.df ++ hist }
    | t :: _ =>
        { s with df := s.df ++ hist.filter (fun r => r.datetime < t.datetime) }

/-- `QuoteManager._subscribe` for a single code: skip when the contract
lookup fails or the code is already subscribed; otherwise call the
gateway subscribe, add the code to the registry, and when `recover` is set
run `_recover_ticks` with the fetched history `hist`. -/
def subscribe_tick (contracts : String → Option Unit) (s : QMState)
    (code : String) (recover : Bool) (hist : List Tick) : QMState :=
  if contracts code = none ∨ code ∈ s.subscribed then s
  else
    let s1 : QMState :=
      { s with gwSubscribeCalls := s.gwSubscribeCalls ++ [code],
               subscribed := s.subscribed ++ [code] }
    if recover then recover_ticks s1 code hist else s1

/-- `QuoteManager._unsubscribe` for a single code: a no-op when the code
is not in the registry, otherwise remove it (the gateway unsubscribe call
carries no local state and is not tracked). -/
def unsubscribe_tick (s : QMState) (code : String) : QMState :=
  if code ∈ s.subscribed then
    { s with subscribed := s.subscribed.filter (fun c => c != code) }
  else s

/-- One externally observable event hitting a `QuoteManager`: a live tick
pushed by the gateway callback, a `get_df` drain, a `_subscribe` call
(with the history that `fetch_ticks` would return for the code), or an
`_unsubscribe` call. -/
inductive QMEvent where
  | tick (t : Tick)
  | getDf
  | subscribe (code : String) (recover : Bool) (hist : List Tick)
  | unsubscribe (code : String)
deriving DecidableEq

/-- Step function of the `QuoteManager` model. -/
def qmStep (contracts : String → Option Unit) (s : QMState) : QMEvent → QMState
  | .tick t => on_tick_handler s t
  | .getDf => get_df s
  | .subscribe code r hist => subscribe_tick contracts s code r hist
  | .unsubscribe code => unsubscribe_tick s code

/-- Run a sequence of events against the `QuoteManager` model. -/
def qmRun (contracts : String → Option Unit) (s : QMState)
    (es : List QMEvent) : QMState :=
  es.foldl (qmStep contracts) s

/-- The stored tick series of one instrument: the timestamps of the rows
for `code`, accumulated DataFrame first, then the not-yet-drained raw
buffer (this is the order in which `get_df` will materialize them). -/
def seriesFor (s : QMState) (code : String) : List Nat :=
  ((s.df ++ s.pending).filter (fun t => t.code == code)).map (fun t => t.datetime)

/-- Environment guard for an event, matching the conditions the spec
assumes of the outside world: a live tick carries a timestamp strictly
above everything already buffered for its instrument (live feeds are
time-ordered and later than any already recorded data), and a recovering
subscribe happens at the instrument's first activation (no rows for the
code are in the accumulated DataFrame yet) with a strictly
time-sorted history whose rows all carry the subscribed code. -/
def QMGuard (s : QMState) : QMEvent → Prop
  | .tick t => ∀ u ∈ s.df ++ s.pending, u.code = t.code → u.datetime < t.datetime
  | .getDf => True
  | .subscribe code r hist =>
      r = true →
        List.Pairwise (fun a b => a.datetime < b.datetime) hist ∧
        (∀ u ∈ hist, u.code = code) ∧
        s.df.filter (fun t => t.code == code) = []
  | .unsubscribe _ => True

instance (s : QMState) (e : QMEvent) : Decidable (QMGuard s e) := by
  cases e <;> (unfold QMGuard; infer_instance)

/-- A run of the `QuoteManager` model in which every event satisfies its
environment guard at the state where it fires. -/
inductive GuardedRun (contracts : String → Option Unit) :
    QMState → List QMEvent → Prop
  | nil (s : QMState) : GuardedRun contracts s []
  | cons (s : QMState) (e : QMEvent) (es : List QMEvent) :
      QMGuard s e → GuardedRun contracts (qmStep contracts s e) es →
      GuardedRun contracts s (e :: es)

/-- A contract table in which every code resolves. -/
def lookupAll : String → Option Unit := fun _ => some ()

/-! ### StopLossStrategy (`strategy/stop_loss.py`) -/

/-- Position / order direction, the lowercased `direction` string of the
strategy. -/
inductive Dir where
  | long
  | short
deriving DecidableEq

/-- The shioaji `Action` constants used by the strategy. -/
inductive Act where
  | buy
  | sell
deriving DecidableEq

/-- Price type of a placed futures order (`FuturesPriceType.LMT` /
`FuturesPriceType.MKT`). -/
inductive PriceKind where
  | lmt
  | mkt
deriving DecidableEq

/-- Mutable state of a `StopLossStrategy` instance: construction
parameters plus the tracked run state (`is_running`, `tp_order_id`,
`sl_order_id`, `position_closed`, `entry_price`). -/
structure StratState where
  symbol : String
  qty : Int
  sl_price : Rat
  tp_price : Rat
  direction : Dir
  is_running : Bool
  tp_order_id : Option String
  sl_order_id : Option String
  position_closed : Bool
  entry_price : Rat
deriving DecidableEq

/-- Externally observable side effects of the strategy code, in program
order: notifications (`NotificationManager.notify`, identified by title),
console prints, gateway calls through `OrderManager` (cancel, place order,
subscribe), the Google-Sheet trade record write, and a marker for the
assignment `self.position_closed = True` (used to state in which order
the assignment and the gateway calls happen). -/
inductive Effect where
  | notify (title : String)
  | printLog (msg : String)
  | setClosed
  | gwCancelOrder (id : String)
  | gwPlaceOrder (kind : PriceKind) (a : Act) (price : Rat) (q : Int)
  | gwSubscribe (code : String)
  | logTradeRecord
deriving DecidableEq

/-- Behaviour of the external gateway during one strategy call:
whether `OrderManager.cancel_order` raises, and the order id returned by
`place_futures_order` (`none` models the call raising). -/
structure GwBehavior where
  cancelRaises : Bool
  placeResult : Option String
deriving DecidableEq

/-- `StopLossStrategy._trigger_sl_execution`: set `position_closed` first,
then (when a take-profit order id is recorded) notify and request the
cancel — an exception there is caught and only printed — and finally
notify and place the market stop order, recording its id on success and
notifying on failure (the exception is caught). -/
def trigger_sl_execution (gw : GwBehavior) (s : StratState) (a : Act)
    (price : Rat) : StratState × List Effect :=
  let s0 : StratState := { s with position_closed := true }
  let cancelFx : List Effect :=
    match s0.tp_order_id with
    | some oid =>
        [Effect.notify "Cancelling TP", Effect.gwCancelOrder oid] ++
          (if gw.cancelRaises then [Effect.printLog "Error cancelling TP"] else [])
    | none => []
  let placeFx : List Effect :=
    [Effect.notify "Executing SL Market Order",
     Effect.gwPlaceOrder PriceKind.mkt a price s0.qty]
  match gw.placeResult with
  | some oid =>
      ({ s0 with sl_order_id := some oid },
        Effect.setClosed :: cancelFx ++ placeFx ++ [Effect.notify "SL Order Sent"])
  | none =>
      (s0,
        Effect.setClosed :: cancelFx ++ placeFx ++
          [Effect.notify "SL Order Execution Failed"])

/-- A live futures tick as seen by `on_tick_fop_v1` (only `code` and
`close` are read). -/
structure FopTick where
  code : String
  close : Rat
deriving DecidableEq

/-- `StopLossStrategy.on_tick_fop_v1`: ignore the tick when the position
is closed or the strategy is stopped, or when the code differs from the
monitored symbol; otherwise compare the price against `sl_price` with the
direction-aware comparison (long: trigger when price is at or below the
stop, short: at or above) and, on a hit, notify and run
`_trigger_sl_execution` with the closing action. -/
def on_tick_fop_v1 (gw : GwBehavior) (s : StratState) (tick : FopTick) :
    StratState × List Effect :=
  if s.position_closed || !s.is_running then (s, [])
  else if tick.code != s.symbol then (s, [])
  else
    let current_price := tick.close
    match s.direction with
    | Dir.long =>
        if current_price ≤ s.sl_price then
          let r := trigger_sl_execution gw s Act.sell current_price
          (r.1, Effect.notify "Stop Loss Triggered" :: r.2)
        else (s, [])
    | Dir.short =>
        if s.sl_price ≤ current_price then
          let r := trigger_sl_execution gw s Act.buy current_price
          (r.1, Effect.notify "Stop Loss Triggered" :: r.2)
        else (s, [])

/-- Feed a stream of ticks through `on_tick_fop_v1`, accumulating the
emitted effects. -/
def run_ticks (gw : GwBehavior) (s : StratState) (ticks : List FopTick) :
    StratState × List Effect :=
  ticks.foldl
    (fun acc t =>
      let r := on_tick_fop_v1 gw acc.1 t
      (r.1, acc.2 ++ r.2))
    (s, [])

/-- Recognizer for the market stop order placed by
`_trigger_sl_execution` (the observable part of a stop-loss trigger). -/
def isMarketPlace : Effect → Bool
  | Effect.gwPlaceOrder PriceKind.mkt _ _ _ => true
  | _ => false

/-- Number of market stop orders in an effect trace: the number of times
the stop-loss trigger fired. -/
def triggerCount (fx : List Effect) : Nat := fx.countP isMarketPlace

/-- A trade-fill notification as consumed by `on_trade` (`trade.order.id`
and `trade.price`). -/
structure TradeFill where
  id : String
  price : Rat
deriving DecidableEq

/-- `StopLossStrategy.on_trade`: return immediately when the strategy is
stopped; when the fill matches the recorded take-profit (resp. stop) order
id, notify, write the trade record, set `position_closed` and call
`stop()` (which clears `is_running`); any other fill falls through with no
effect at all. -/
def on_trade (s : StratState) (tr : TradeFill) : StratState × List Effect :=
  if !s.is_running then (s, [])
  else if s.tp_order_id = some tr.id then
    ({ s with position_closed := true, is_running := false },
      [Effect.notify "Take Profit Executed", Effect.logTradeRecord,
       Effect.printLog "Strategy process ended."])
  else if s.sl_order_id = some tr.id then
    ({ s with position_closed := true, is_running := false },
      [Effect.notify "Stop Loss Executed", Effect.logTradeRecord,
       Effect.printLog "Strategy process ended."])
  else (s, [])

/-- A step of the OCO machine transitions to the `Closed` terminal state:
the strategy was live before and is stopped with the position flagged
closed afterwards. -/
def ClosesStep (s s2 : StratState) : Prop :=
  s.is_running = true ∧ s2.is_running = false ∧ s2.position_closed = true

instance (s s2 : StratState) : Decidable (ClosesStep s s2) := by
  unfold ClosesStep
  infer_instance

/-- `StopLossStrategy.stop`: clear `is_running` and print; the quote
manager (carrying the tick subscriptions) is not touched. -/
def stop (s : StratState) (q : QMState) : (StratState × QMState) × List Effect :=
  (({ s with is_running := false }, q), [Effect.printLog "Strategy process ended."])

/-- A futures position as returned by
`OrderManager.get_futures_position`: signed quantity, entry price, and
the direction field reported by the gateway. -/
structure Position where
  quantity : Rat
  price : Rat
  direction : Act
deriving DecidableEq

/-- The held direction as computed in `StopLossStrategy.run`:
long when the gateway direction is `Buy` or the signed quantity is
positive, short otherwise. -/
def posDir (p : Position) : Dir :=
  if p.direction = Act.buy ∨ 0 < p.quantity then Dir.long else Dir.short

/-- Reason a strategy run aborted during its start-up phase. -/
inductive AbortReason where
  | noPosition
  | insufficientQuantity
  | directionMismatch
  | tpPlacementFailed
deriving DecidableEq

/-- Outcome of the start-up phase of `StopLossStrategy.run`. -/
inductive RunOutcome where
  | aborted (r : AbortReason)
  | monitoring
deriving DecidableEq

/-- `StopLossStrategy.run` up to entering the monitoring loop: notify
start; verify the position reported by the gateway (`pos`) — it must
exist, its absolute quantity must reach the requested quantity, and its
direction must match — aborting (notify and `stop()`) on any violation
before any order is placed; then place the limit take-profit order
opposite to the direction, aborting when that raises; finally subscribe
to the symbol and enter monitoring. -/
def runStrategy (gw : GwBehavior) (pos : Option Position) (s : StratState) :
    StratState × List Effect × RunOutcome :=
  let s0 : StratState := { s with is_running := true }
  let started := Effect.notify "Strategy Started"
  let failed := Effect.notify "Position Check Failed"
  let stopped := Effect.printLog "Strategy process ended."
  match pos with
  | none =>
      ({ s0 with is_running := false }, [started, failed, stopped],
        RunOutcome.aborted AbortReason.noPosition)
  | some p =>
      if |p.quantity| < (s0.qty : Rat) then
        ({ s0 with is_running := false }, [started, failed, stopped],
          RunOutcome.aborted AbortReason.insufficientQuantity)
      else if posDir p ≠ s0.direction then
        ({ s0 with is_running := false }, [started, failed, stopped],
          RunOutcome.aborted AbortReason.directionMismatch)
      else
        let s1 : StratState := { s0 with entry_price := p.price }
        let a := if s1.direction = Dir.long then Act.sell else Act.buy
        match gw.placeResult with
        | none =>
            ({ s1 with is_running := false },
              [started, Effect.gwPlaceOrder PriceKind.lmt a s1.tp_price s1.qty,
               Effect.notify "Failed to place TP Order", stopped],
              RunOutcome.aborted AbortReason.tpPlacementFailed)
        | some oid =>
            ({ s1 with tp_order_id := some oid },
              [started, Effect.gwPlaceOrder PriceKind.lmt a s1.tp_price s1.qty,
               Effect.notify "TP Order Placed", Effect.gwSubscribe s1.symbol],
              RunOutcome.monitoring)

/-- Recognizer for order placements in an effect trace. -/
def isPlaceOrder : Effect → Bool
  | Effect.gwPlaceOrder _ _ _ _ => true
  | _ => false

/-! ### OrderManager (`trading/order.py`) -/

/-- A trade handle from `api.list_trades()`, identified by
`trade.status.id`. -/
structure TradeRec where
  id : String
deriving DecidableEq

/-- Gateway calls issued by `OrderManager`. -/
inductive GwCall where
  | updateStatus
  | cancelReq (id : String)
  | updatePriceReq (id : String) (price : Rat)
deriving DecidableEq

/-- `OrderManager.cancel_order`: refresh status, look the order up in the
refreshed trade list; when absent, print a warning and return normally
without sending any cancel; when found, send the cancel request.
Returns (outcome, gateway calls, whether the warning was printed). -/
def cancel_order (trades : List TradeRec) (order_id : String) :
    Except String Unit × List GwCall × Bool :=
  match trades.find? (fun t => t.id == order_id) with
  | none => (Except.ok (), [GwCall.updateStatus], true)
  | some _ => (Except.ok (), [GwCall.updateStatus, GwCall.cancelReq order_id], false)

/-- `OrderManager.update_order_price`: refresh status, look the order up
in the refreshed trade list; when absent, raise `ValueError` (modelled as
`Except.error`); when found, send the price update, refresh that trade,
and return it. -/
def update_order_price (trades : List TradeRec) (order_id : String)
    (new_price : Rat) : Except String TradeRec × List GwCall :=
  match trades.find? (fun t => t.id == order_id) with
  | none => (Except.error "Order ID not found.", [GwCall.updateStatus])
  | some t =>
      (Except.ok t,
        [GwCall.updateStatus, GwCall.updatePriceReq order_id new_price,
         GwCall.updateStatus])

/-! ### K-bar aggregation (`QuoteManager._aggregate_kbar`) -/

/-- Grouping key of `_aggregate_kbar`: the tick timestamp truncated to
the bucket unit, paired with the instrument code. -/
abbrev BucketKey := Nat × String

/-- One step of an order-maintaining hash group-by (the operational
semantics of polars `group_by(..., maintain_order=True)`): route the row
to its group when the key is already present, otherwise open a new group
at the end. -/
def addTick (key : Tick → BucketKey) :
    List (BucketKey × List Tick) → Tick → List (BucketKey × List Tick)
  | [], t => [(key t, [t])]
  | (k, g) :: rest, t =>
      if k = key t then (k, g ++ [t]) :: rest
      else (k, g) :: addTick key rest t

/-- The groups produced by scanning the frame left to right. -/
def groupsOf (key : Tick → BucketKey) (rows : List Tick) :
    List (BucketKey × List Tick) :=
  rows.foldl (addTick key) []

/-- Modelled from the spec: the distinct keys of the frame in order of
first appearance. -/
def firstKeys (key : Tick → BucketKey) : List Tick → List BucketKey
  | [] => []
  | t :: ts => key t :: (firstKeys key ts).filter (fun k => k != key t)

/-- Modelled from the spec: the reference grouping — for every key in
first-appearance order, the rows of the frame carrying that key, in frame
order. -/
def groupsRef (key : Tick → BucketKey) (rows : List Tick) :
    List (BucketKey × List Tick) :=
  (firstKeys key rows).map (fun k => (k, rows.filter (fun t => key t == k)))

/-- An OHLCV bar produced by `_aggregate_kbar`. -/
structure Bar where
  bucket : Nat
  code : String
  opn : Rat
  high : Rat
  low : Rat
  close : Rat
  volume : Int
deriving DecidableEq

/-- polars `first` over a column. -/
def colFirst (xs : List Rat) : Rat := xs.headD 0

/-- polars `last` over a column. -/
def colLast (xs : List Rat) : Rat := xs.getLastD 0

/-- polars `max` over a (nonempty) column. -/
def colMax (xs : List Rat) : Rat := xs.foldl max (xs.headD 0)

/-- polars `min` over a (nonempty) column. -/
def colMin (xs : List Rat) : Rat := xs.foldl min (xs.headD 0)

/-- polars `sum` over a column. -/
def colSum (xs : List Int) : Int := xs.foldl (· + ·) 0

/-- The aggregation expressions of `_aggregate_kbar` applied to one
group: open is the first price, high the max, low the min, close the
last, volume the sum. -/
def aggGroup (kg : BucketKey × List Tick) : Bar :=
  { bucket := kg.1.1
    code := kg.1.2
    opn := colFirst (kg.2.map Tick.price)
    high := colMax (kg.2.map Tick.price)
    low := colMin (kg.2.map Tick.price)
    close := colLast (kg.2.map Tick.price)
    volume := colSum (kg.2.map Tick.volume) }

/-- `dt.truncate(unit)` paired with the code column: the group-by key of
`_aggregate_kbar` for bucket length `unit`. -/
def truncKey (unit : Nat) (t : Tick) : BucketKey :=
  (t.datetime - t.datetime % unit, t.code)

/-- `QuoteManager._aggregate_kbar` (without the optional extra
expressions): group the frame by truncated timestamp and code,
maintaining order, and aggregate each group to a bar. -/
def aggregate_kbar (unit : Nat) (rows : List Tick) : List Bar :=
  (groupsOf (truncKey unit) rows).map aggGroup

/-- Modelled from the spec: the reference K-bar definition — group ticks
by (truncated timestamp, code) with groups ordered by first appearance,
then open=first, high=max, low=min, close=last, volume=sum. -/
def kbar_reference (unit : Nat) (rows : List Tick) : List Bar :=
  (groupsRef (truncKey unit) rows).map aggGroup

/-! ### Historical tick fetching (`QuoteManager.fetch_ticks`) -/

/-- A raw historical tick as returned by `api.ticks` (`ts` is the epoch
timestamp in nanoseconds). -/
structure RawTick where
  ts : Nat
  close : Rat
  volume : Int
  tick_type : Int
deriving DecidableEq

/-- The wall clock at fetch time: local minutes since midnight (so the
hour is `minutesOfDay / 60`) and the epoch-nanosecond value of today
15:00 local (`now.replace(hour=15, ...)`). -/
structure Clock where
  minutesOfDay : Nat
  cutoff : Nat
deriving DecidableEq

/-- The `needs_night` condition of `fetch_ticks`: the hour is at least 15
and the main-session frame is empty or its last timestamp is before the
15:00 cutoff. -/
def needs_night (clock : Clock) (mainTicks : List RawTick) : Bool :=
  decide (15 ≤ clock.minutesOfDay / 60) &&
    (mainTicks.isEmpty ||
      decide ((mainTicks.getLastD ⟨0, 0, 0, 0⟩).ts < clock.cutoff))

/-- polars `unique(subset=["ts"], keep="first")`: keep, for every
timestamp, the first row carrying it. -/
def dedup_first_ts : List RawTick → List RawTick
  | [] => []
  | r :: rs =>
      r :: dedup_first_ts (rs.filter (fun x => x.ts != r.ts))
  termination_by l => l.length
  decreasing_by
    simp only [List.length_cons]
    exact Nat.lt_succ_of_le (List.length_filter_le _ _)

/-- Insert a row into a list sorted by timestamp. -/
def insort_ts (r : RawTick) : List RawTick → List RawTick
  | [] => [r]
  | x :: xs => if r.ts ≤ x.ts then r :: x :: xs else x :: insort_ts r xs

/-- polars `sort("ts")`. -/
def sort_ts (l : List RawTick) : List RawTick := l.foldr insort_ts []

/-- The merge step of `fetch_ticks`: the night frame is used only when
the night condition held and the night fetch returned rows; in that case
concatenate, de-duplicate by timestamp keeping the first-seen row, and
sort by timestamp; otherwise the main frame passes through. -/
def fetch_merged (clock : Clock) (mainTicks nightTicks : List RawTick) :
    List RawTick :=
  let night := if needs_night clock mainTicks && !nightTicks.isEmpty
    then nightTicks else []
  if night.isEmpty then mainTicks
  else sort_ts (dedup_first_ts (mainTicks ++ night))

/-- The final `select` of `fetch_ticks`: epoch nanoseconds cast to
microseconds, the contract code as a literal column, and the remaining
columns renamed. -/
def to_row (code : String) (r : RawTick) : Tick :=
  { code := code, datetime := r.ts / 1000, price := r.close,
    volume := r.volume, tick_type := r.tick_type }

/-- `QuoteManager.fetch_ticks`, parameterized by what the gateway would
return for the main-session fetch and for the same-day (night) fetch.
Returns whether the second fetch was issued, and the resulting rows
(an empty frame maps to an empty result, not an error). -/
def fetch_ticks (clock : Clock) (mainTicks nightTicks : List RawTick)
    (code : String) : Bool × List Tick :=
  let issued := needs_night clock mainTicks
  let df := fetch_merged clock mainTicks nightTicks
  (issued, if df.isEmpty then [] else df.map (to_row code))

/-! ## Theorems -/

/-- Recovery never touches the subscription registry or the gateway
subscribe trace. -/
theorem recover_ticks_registry (s : QMState) (c : String) (h : List Tick) :
    (recover_ticks s c h).subscribed = s.subscribed ∧
      (recover_ticks s c h).gwSubscribeCalls = s.gwSubscribeCalls := by
  unfold recover_ticks
  split
  · exact ⟨rfl, rfl⟩
  · split <;> exact ⟨rfl, rfl⟩

/-- `_subscribe` skips a code that is already subscribed. -/
theorem subscribe_tick_skip (contracts : String → Option Unit) (s : QMState)
    (code : String) (r : Bool) (h : List Tick) (hmem : code ∈ s.subscribed) :
    subscribe_tick contracts s code r h = s := by
  unfold subscribe_tick
  rw [if_pos (Or.inr hmem)]

/-- Claim C7 (counterexample): from a registry state in which the code is
already subscribed (and its contract lookup succeeds), two consecutive
subscribe calls issue zero gateway subscribe calls in total, not exactly
one — `_subscribe` skips a code that is already in `_subscribed`. -/
theorem subscribe_twice_already_subscribed_no_call :
    (let s0 : QMState := ⟨["A"], [], [], []⟩
     let s1 := subscribe_tick lookupAll s0 "A" false []
     let s2 := subscribe_tick lookupAll s1 "A" false []
     lookupAll "A" = some () ∧ s2 = s0 ∧
       s2.gwSubscribeCalls.length = 0 ∧ ¬ s2.gwSubscribeCalls.length = 1) := by
  decide

/-- Claim C7 (amended): for every registry state and code whose contract
lookup succeeds, the second of two consecutive subscribe calls leaves the
state (registry, buffers and gateway call trace) unchanged; and when the
code was not yet subscribed, the first call issues exactly one gateway
subscribe call and records the code. -/
theorem subscribe_twice_idempotent (contracts : String → Option Unit)
    (s : QMState) (code : String) (r1 r2 : Bool) (h1 h2 : List Tick)
    (hc : contracts code ≠ none) :
    (subscribe_tick contracts (subscribe_tick contracts s code r1 h1) code r2 h2
        = subscribe_tick contracts s code r1 h1)
    ∧ (code ∉ s.subscribed →
        (subscribe_tick contracts s code r1 h1).gwSubscribeCalls
            = s.gwSubscribeCalls ++ [code]
          ∧ (subscribe_tick contracts s code r1 h1).subscribed
            = s.subscribed ++ [code]) := by
  by_cases hmem : code ∈ s.subscribed
  · have h1eq : subscribe_tick contracts s code r1 h1 = s :=
      subscribe_tick_skip contracts s code r1 h1 hmem
    rw [h1eq]
    exact ⟨subscribe_tick_skip contracts s code r2 h2 hmem,
      fun hn => absurd hmem hn⟩
  · have hcond : ¬ (contracts code = none ∨ code ∈ s.subscribed) := by
      rintro (h | h)
      · exact hc h
      · exact hmem h
    have hsub : (subscribe_tick contracts s code r1 h1).subscribed
        = s.subscribed ++ [code] := by
      unfold subscribe_tick
      rw [if_neg hcond]
      cases r1
      · rfl
      · exact (recover_ticks_registry _ _ _).1
    have hgw : (subscribe_tick contracts s code r1 h1).gwSubscribeCalls
        = s.gwSubscribeCalls ++ [code] := by
      unfold subscribe_tick
      rw [if_neg hcond]
      cases r1
      · rfl
      · exact (recover_ticks_registry _ _ _).2
    have hmem2 : code ∈ (subscribe_tick contracts s code r1 h1).subscribed := by
      rw [hsub]
      exact List.mem_append_right _ (List.mem_singleton.mpr rfl)
    exact ⟨subscribe_tick_skip contracts _ code r2 h2 hmem2,
      fun _ => ⟨hgw, hsub⟩⟩

/-- Claim C7 (witness): concrete instance of the amended theorem on the
fresh manager. -/
theorem subscribe_twice_idempotent_witness :
    lookupAll "A" ≠ none ∧
      ((subscribe_tick lookupAll (subscribe_tick lookupAll initQM "A" false [])
            "A" false [] = subscribe_tick lookupAll initQM "A" false [])
        ∧ ("A" ∉ initQM.subscribed →
            (subscribe_tick lookupAll initQM "A" false []).gwSubscribeCalls
                = initQM.gwSubscribeCalls ++ ["A"]
              ∧ (subscribe_tick lookupAll initQM "A" false []).subscribed
                = initQM.subscribed ++ ["A"])) :=
  ⟨by decide,
    subscribe_twice_idempotent lookupAll initQM "A" false false [] [] (by decide)⟩

/-- Claim C6 (counterexample): `stop()` does not unsubscribe — after
stopping a strategy whose symbol is subscribed, the quote-manager
registry still contains the symbol, even though the strategy is marked
inactive. -/
theorem stop_does_not_unsubscribe :
    (let s0 : StratState :=
      ⟨"TXFA4", 1, 100, 120, Dir.long, true, some "TP1", none, false, 0⟩
     let q0 : QMState := ⟨["TXFA4"], [], [], ["TXFA4"]⟩
     (stop s0 q0).1.2.subscribed = ["TXFA4"] ∧
       s0.symbol ∈ (stop s0 q0).1.2.subscribed ∧
       (stop s0 q0).1.1.is_running = false) := by
  decide

/-- Claim C6 (amended): `stop()` marks the strategy inactive, is callable
from any state, leaves the quote manager (including the tick
subscriptions) untouched, and is idempotent. -/
theorem stop_marks_inactive_idempotent (s : StratState) (q : QMState) :
    (stop s q).1.1.is_running = false ∧ (stop s q).1.2 = q ∧
      stop (stop s q).1.1 (stop s q).1.2 = stop s q :=
  ⟨rfl, rfl, rfl⟩

/-- Claim C8: on an order id absent from the refreshed trade list,
`cancel_order` succeeds with only a warning and sends no cancel request,
while `update_order_price` raises an order-not-found error. -/
theorem cancel_vs_update_price_missing_order (trades : List TradeRec)
    (oid : String) (p : Rat) (h : ∀ t ∈ trades, t.id ≠ oid) :
    (cancel_order trades oid).1 = Except.ok ()
    ∧ (cancel_order trades oid).2.1 = [GwCall.updateStatus]
    ∧ (∀ c ∈ (cancel_order trades oid).2.1, ∀ i, c ≠ GwCall.cancelReq i)
    ∧ (cancel_order trades oid).2.2 = true
    ∧ (update_order_price trades oid p).1
        = Except.error "Order ID not found." := by
  have hf : trades.find? (fun t => t.id == oid) = none := by
    apply List.find?_eq_none.mpr
    intro t ht
    simpa using h t ht
  unfold cancel_order update_order_price
  rw [hf]
  refine ⟨rfl, rfl, ?_, rfl, rfl⟩
  intro c hcm i
  simp only [List.mem_singleton] at hcm
  subst hcm
  exact fun hek => GwCall.noConfusion hek

/-- Claim C8 (witness): concrete instance with one live trade and a
missing order id. -/
theorem cancel_vs_update_price_missing_order_witness :
    (∀ t ∈ [(⟨"X123"⟩ : TradeRec)], t.id ≠ "Y999") ∧
      ((cancel_order [⟨"X123"⟩] "Y999").1 = Except.ok ()
      ∧ (cancel_order [⟨"X123"⟩] "Y999").2.1 = [GwCall.updateStatus]
      ∧ (∀ c ∈ (cancel_order [⟨"X123"⟩] "Y999").2.1, ∀ i, c ≠ GwCall.cancelReq i)
      ∧ (cancel_order [⟨"X123"⟩] "Y999").2.2 = true
      ∧ (update_order_price [⟨"X123"⟩] "Y999" 50).1
          = Except.error "Order ID not found.") :=
  ⟨by decide,
    cancel_vs_update_price_missing_order [⟨"X123"⟩] "Y999" 50 (by decide)⟩

/-- Claim C2 (counterexample): after a stop-loss trigger, fills arrive
for both legs; processing the take-profit fill closes and stops the
strategy, and processing the second (stop-leg) fill is silently dropped —
it produces no state change and no notification of any kind, in
particular no anomaly report (`on_trade` returns immediately once
`is_running` is false, and no anomaly path exists in the code). -/
theorem oco_double_fill_no_anomaly_report :
    (let s0 : StratState :=
      ⟨"TXFA4", 1, 100, 120, Dir.long, true, some "TP1", some "SL1", true, 500⟩
     let r1 := on_trade s0 ⟨"TP1", 120⟩
     let r2 := on_trade r1.1 ⟨"SL1", 99⟩
     ClosesStep s0 r1.1 ∧ r2.2 = [] ∧ r2.1 = r1.1 ∧
       (let q1 := on_trade s0 ⟨"SL1", 99⟩
        let q2 := on_trade q1.1 ⟨"TP1", 120⟩
        ClosesStep s0 q1.1 ∧ q2.2 = [] ∧ q2.1 = q1.1)) := by
  decide

/-- Claim C2 (amended): when fills arrive for both the take-profit and
the stop order id, in either order, exactly the first produces a `Closed`
transition; the second fill is silently ignored — the state is unchanged
and no effect (hence no anomaly report) is emitted. -/
theorem oco_double_fill_single_close (s : StratState) (tpId slId : String)
    (p1 p2 : Rat) (hrun : s.is_running = true)
    (htp : s.tp_order_id = some tpId) (hsl : s.sl_order_id = some slId) :
    (ClosesStep s (on_trade s ⟨tpId, p1⟩).1
      ∧ ¬ ClosesStep (on_trade s ⟨tpId, p1⟩).1
            (on_trade (on_trade s ⟨tpId, p1⟩).1 ⟨slId, p2⟩).1
      ∧ on_trade (on_trade s ⟨tpId, p1⟩).1 ⟨slId, p2⟩
          = ((on_trade s ⟨tpId, p1⟩).1, []))
    ∧ (ClosesStep s (on_trade s ⟨slId, p1⟩).1
      ∧ ¬ ClosesStep (on_trade s ⟨slId, p1⟩).1
            (on_trade (on_trade s ⟨slId, p1⟩).1 ⟨tpId, p2⟩).1
      ∧ on_trade (on_trade s ⟨slId, p1⟩).1 ⟨tpId, p2⟩
          = ((on_trade s ⟨slId, p1⟩).1, [])) := by
  have hfirstTP : (on_trade s ⟨tpId, p1⟩).1
      = { s with position_closed := true, is_running := false } := by
    unfold on_trade
    rw [hrun, htp]
    simp
  have hfirstSL : (on_trade s ⟨slId, p1⟩).1
      = { s with position_closed := true, is_running := false } := by
    unfold on_trade
    rw [hrun, htp, hsl]
    by_cases heq : tpId = slId
    · simp [heq]
    · simp [Option.some_inj, heq, Ne.symm heq]
  have hdead : ∀ (s2 : StratState) (tr : TradeFill), s2.is_running = false →
      on_trade s2 tr = (s2, []) := by
    intro s2 tr h2
    unfold on_trade
    rw [h2]
    simp
  constructor
  · rw [hfirstTP]
    refine ⟨⟨hrun, rfl, rfl⟩, ?_, hdead _ _ rfl⟩
    rw [hdead _ _ rfl]
    rintro ⟨hco, -, -⟩
    exact Bool.false_ne_true hco
  · rw [hfirstSL]
    refine ⟨⟨hrun, rfl, rfl⟩, ?_, hdead _ _ rfl⟩
    rw [hdead _ _ rfl]
    rintro ⟨hco, -, -⟩
    exact Bool.false_ne_true hco

/-- Claim C2 (witness): concrete instance of the amended theorem in the
post-trigger race state. -/
theorem oco_double_fill_single_close_witness :
    (let s0 : StratState :=
      ⟨"TXFA4", 1, 100, 120, Dir.long, true, some "TP1", some "SL1", true, 500⟩
     (ClosesStep s0 (on_trade s0 ⟨"TP1", 120⟩).1
      ∧ ¬ ClosesStep (on_trade s0 ⟨"TP1", 120⟩).1
            (on_trade (on_trade s0 ⟨"TP1", 120⟩).1 ⟨"SL1", 99⟩).1
      ∧ on_trade (on_trade s0 ⟨"TP1", 120⟩).1 ⟨"SL1", 99⟩
          = ((on_trade s0 ⟨"TP1", 120⟩).1, []))
    ∧ (ClosesStep s0 (on_trade s0 ⟨"SL1", 99⟩).1
      ∧ ¬ ClosesStep (on_trade s0 ⟨"SL1", 99⟩).1
            (on_trade (on_trade s0 ⟨"SL1", 99⟩).1 ⟨"TP1", 120⟩).1
      ∧ on_trade (on_trade s0 ⟨"SL1", 99⟩).1 ⟨"TP1", 120⟩
          = ((on_trade s0 ⟨"SL1", 99⟩).1, []))) :=
  oco_double_fill_single_close
    ⟨"TXFA4", 1, 100, 120, Dir.long, true, some "TP1", some "SL1", true, 500⟩
    "TP1" "SL1" 120 99 rfl rfl rfl

/-- Claim C10: `_trigger_sl_execution` records the closed-position flag
as its very first action — the effect trace starts with the `setClosed`
marker, before any gateway call — the flag is set in the resulting state
for every gateway behaviour (including both the cancel and the placement
raising), and every subsequently processed tick is ignored, so no second
trigger can start. -/
theorem trigger_sets_closed_before_gateway (gw : GwBehavior) (s : StratState)
    (a : Act) (p : Rat) :
    (trigger_sl_execution gw s a p).2.head? = some Effect.setClosed
    ∧ (trigger_sl_execution gw s a p).1.position_closed = true
    ∧ ∀ (gw2 : GwBehavior) (t : FopTick),
        on_tick_fop_v1 gw2 (trigger_sl_execution gw s a p).1 t
          = ((trigger_sl_execution gw s a p).1, []) := by
  have hc : (trigger_sl_execution gw s a p).1.position_closed = true := by
    unfold trigger_sl_execution
    cases gw.placeResult <;> rfl
  refine ⟨?_, hc, ?_⟩
  · unfold trigger_sl_execution
    cases gw.placeResult <;> rfl
  · intro gw2 t
    unfold on_tick_fop_v1
    rw [hc]
    simp

/-- The stop-loss trigger emits exactly one market order. -/
theorem triggerCount_trigger (gw : GwBehavior) (s : StratState) (a : Act)
    (p : Rat) : triggerCount (trigger_sl_execution gw s a p).2 = 1 := by
  unfold trigger_sl_execution triggerCount
  cases gw.placeResult <;> cases s.tp_order_id <;> cases gw.cancelRaises <;>
    simp [isMarketPlace, List.countP_append, List.countP_cons]

/-- Claim C3: the stop comparison of `on_tick_fop_v1` is direction-aware
— given a live, unclosed strategy and a tick for its symbol, the trigger
(cancel take-profit, submit market stop order) fires exactly when the
price is at or below the stop for a long position, at or above for a
short one; and on the long scenario stop=100, tp=120 with tick stream
105, 102, 99, 95, it fires exactly once, on the tick at 99 (the stream up
to 102 fires none, adding 99 fires one, and the subsequent 95 adds
none, nor a second take-profit cancel). -/
theorem stop_loss_trigger_once_direction_aware :
    (∀ (gw : GwBehavior) (s : StratState) (t : FopTick),
        s.position_closed = false → s.is_running = true → t.code = s.symbol →
          (0 < triggerCount (on_tick_fop_v1 gw s t).2 ↔
            (s.direction = Dir.long ∧ t.close ≤ s.sl_price) ∨
              (s.direction = Dir.short ∧ s.sl_price ≤ t.close)))
    ∧ (let gw : GwBehavior := ⟨false, some "SL1"⟩
       let s0 : StratState :=
        ⟨"TXFA4", 2, 100, 120, Dir.long, true, some "TP1", none, false, 0⟩
       triggerCount (run_ticks gw s0 [⟨"TXFA4", 105⟩, ⟨"TXFA4", 102⟩]).2 = 0
       ∧ triggerCount
           (run_ticks gw s0 [⟨"TXFA4", 105⟩, ⟨"TXFA4", 102⟩, ⟨"TXFA4", 99⟩]).2 = 1
       ∧ triggerCount
           (run_ticks gw s0
             [⟨"TXFA4", 105⟩, ⟨"TXFA4", 102⟩, ⟨"TXFA4", 99⟩, ⟨"TXFA4", 95⟩]).2 = 1
       ∧ (run_ticks gw s0
             [⟨"TXFA4", 105⟩, ⟨"TXFA4", 102⟩, ⟨"TXFA4", 99⟩, ⟨"TXFA4", 95⟩]).2.countP
           (fun e => match e with
             | Effect.gwCancelOrder _ => true
             | _ => false) = 1) := by
  constructor
  · intro gw s t hc hr hcode
    unfold on_tick_fop_v1
    rw [hc, hr, hcode]
    simp only [Bool.not_true, Bool.or_false, Bool.false_or, if_neg]
    rw [if_neg (by simp)]
    rw [if_neg (by simp [bne_self_eq_false])]
    cases hd : s.direction
    · by_cases hle : t.close ≤ s.sl_price
      · rw [if_pos hle]
        have hone := triggerCount_trigger gw s Act.sell t.close
        unfold triggerCount at hone
        simp only [triggerCount, List.countP_cons, isMarketPlace, hone]
        simp [hle]
      · rw [if_neg hle]
        simp [triggerCount, hle]
    · by_cases hle : s.sl_price ≤ t.close
      · rw [if_pos hle]
        have hone := triggerCount_trigger gw s Act.buy t.close
        unfold triggerCount at hone
        simp only [triggerCount, List.countP_cons, isMarketPlace, hone]
        simp [hle]
      · rw [if_neg hle]
        simp [triggerCount, hle]
  · decide

/-- Claim C3 (witness): the direction-aware part instantiated on the
long scenario at the tick with price 99. -/
theorem stop_loss_trigger_once_direction_aware_witness :
    ((⟨"TXFA4", 2, 100, 120, Dir.long, true, some "TP1", none, false, 0⟩ :
        StratState).position_closed = false)
    ∧ ((⟨"TXFA4", 2, 100, 120, Dir.long, true, some "TP1", none, false, 0⟩ :
        StratState).is_running = true)
    ∧ ((⟨"TXFA4", (99 : Rat)⟩ : FopTick).code
        = (⟨"TXFA4", 2, 100, 120, Dir.long, true, some "TP1", none, false, 0⟩ :
            StratState).symbol)
    ∧ (0 < triggerCount
        (on_tick_fop_v1 ⟨false, some "SL1"⟩
          ⟨"TXFA4", 2, 100, 120, Dir.long, true, some "TP1", none, false, 0⟩
          ⟨"TXFA4", 99⟩).2 ↔
        ((⟨"TXFA4", 2, 100, 120, Dir.long, true, some "TP1", none, false, 0⟩ :
            StratState).direction = Dir.long ∧
          (99 : Rat) ≤ (⟨"TXFA4", 2, 100, 120, Dir.long, true, some "TP1", none,
            false, 0⟩ : StratState).sl_price) ∨
        ((⟨"TXFA4", 2, 100, 120, Dir.long, true, some "TP1", none, false, 0⟩ :
            StratState).direction = Dir.short ∧
          (⟨"TXFA4", 2, 100, 120, Dir.long, true, some "TP1", none, false, 0⟩ :
            StratState).sl_price ≤ (99 : Rat))) :=
  ⟨rfl, rfl, rfl,
    stop_loss_trigger_once_direction_aware.1 ⟨false, some "SL1"⟩
      ⟨"TXFA4", 2, 100, 120, Dir.long, true, some "TP1", none, false, 0⟩
      ⟨"TXFA4", 99⟩ rfl rfl rfl⟩

/-- Claim C4: whenever the gateway reports no position, or an absolute
quantity below the requested one, or a direction other than the
requested one, the start-up phase aborts with one of the verification
reasons (never the placement reason), the strategy stops, and no order
of any kind is placed. -/
theorem verify_abort_places_no_order (gw : GwBehavior) (pos : Option Position)
    (s : StratState)
    (h : pos = none ∨ ∃ p, pos = some p ∧
          (|p.quantity| < (s.qty : Rat) ∨ posDir p ≠ s.direction)) :
    (∃ r, r ≠ AbortReason.tpPlacementFailed ∧
        (runStrategy gw pos s).2.2 = RunOutcome.aborted r)
    ∧ (runStrategy gw pos s).1.is_running = false
    ∧ (runStrategy gw pos s).2.1.countP isPlaceOrder = 0 := by
  rcases h with rfl | ⟨p, rfl, hp⟩
  · exact ⟨⟨AbortReason.noPosition, by decide, rfl⟩, rfl, rfl⟩
  · by_cases hq : |p.quantity| < (s.qty : Rat)
    · have he : runStrategy gw (some p) s
          = ({ s with is_running := false },
              [Effect.notify "Strategy Started",
               Effect.notify "Position Check Failed",
               Effect.printLog "Strategy process ended."],
              RunOutcome.aborted AbortReason.insufficientQuantity) := by
        unfold runStrategy
        dsimp only
        rw [if_pos hq]
      rw [he]
      exact ⟨⟨AbortReason.insufficientQuantity, by decide, rfl⟩, rfl, rfl⟩
    · rcases hp with hp | hd
      · exact absurd hp hq
      · have he : runStrategy gw (some p) s
            = ({ s with is_running := false },
                [Effect.notify "Strategy Started",
                 Effect.notify "Position Check Failed",
                 Effect.printLog "Strategy process ended."],
                RunOutcome.aborted AbortReason.directionMismatch) := by
          unfold runStrategy
          dsimp only
          rw [if_neg hq, if_pos hd]
        rw [he]
        exact ⟨⟨AbortReason.directionMismatch, by decide, rfl⟩, rfl, rfl⟩

/-- Claim C4 (witness): a held long position of quantity 2 against a
requested quantity of 3 aborts with a verification reason and places no
order. -/
theorem verify_abort_places_no_order_witness :
    ((some (⟨2, 500, Act.buy⟩ : Position) = none ∨
        ∃ p, some (⟨2, 500, Act.buy⟩ : Position) = some p ∧
          (|p.quantity| < (((⟨"TXFA4", 3, 100, 120, Dir.long, false, none, none,
              false, 0⟩ : StratState).qty : Int) : Rat) ∨
            posDir p ≠ (⟨"TXFA4", 3, 100, 120, Dir.long, false, none, none,
              false, 0⟩ : StratState).direction)))
    ∧ ((∃ r, r ≠ AbortReason.tpPlacementFailed ∧
          (runStrategy ⟨false, some "TP1"⟩ (some ⟨2, 500, Act.buy⟩)
            ⟨"TXFA4", 3, 100, 120, Dir.long, false, none, none, false, 0⟩).2.2
            = RunOutcome.aborted r)
      ∧ (runStrategy ⟨false, some "TP1"⟩ (some ⟨2, 500, Act.buy⟩)
          ⟨"TXFA4", 3, 100, 120, Dir.long, false, none, none, false, 0⟩).1.is_running
          = false
      ∧ (runStrategy ⟨false, some "TP1"⟩ (some ⟨2, 500, Act.buy⟩)
          ⟨"TXFA4", 3, 100, 120, Dir.long, false, none, none, false, 0⟩).2.1.countP
          isPlaceOrder = 0) :=
  ⟨Or.inr ⟨⟨2, 500, Act.buy⟩, rfl, Or.inl (by norm_num)⟩,
    verify_abort_places_no_order ⟨false, some "TP1"⟩ (some ⟨2, 500, Act.buy⟩)
      ⟨"TXFA4", 3, 100, 120, Dir.long, false, none, none, false, 0⟩
      (Or.inr ⟨⟨2, 500, Act.buy⟩, rfl, Or.inl (by norm_num)⟩)⟩

/-- Routing a row whose key is already open extends exactly its group
(keys are pairwise distinct in a group list built by `addTick`). -/
theorem addTick_mem (key : Tick → BucketKey) (gs : List (BucketKey × List Tick))
    (t : Tick) (hnd : (gs.map Prod.fst).Nodup) (h : key t ∈ gs.map Prod.fst) :
    addTick key gs t
      = gs.map (fun kg => if kg.1 = key t then (kg.1, kg.2 ++ [t]) else kg) := by
  induction gs with
  | nil => simp at h
  | cons kg rest ih =>
      obtain ⟨k, g⟩ := kg
      by_cases hk : k = key t
      · have hknotin : k ∉ rest.map Prod.fst := by
          have h2 := hnd
          simp only [List.map_cons, List.nodup_cons] at h2
          exact h2.1
        have e1 : addTick key ((k, g) :: rest) t = (k, g ++ [t]) :: rest := by
          simp only [addTick, if_pos hk]
        have e2 : ((k, g) :: rest).map
              (fun kg => if kg.1 = key t then (kg.1, kg.2 ++ [t]) else kg)
            = (k, g ++ [t]) :: rest := by
          rw [List.map_cons,
            if_pos (show ((k, g) : BucketKey × List Tick).1 = key t from hk)]
          have htl : ∀ kg2 ∈ rest,
              (if kg2.1 = key t then (kg2.1, kg2.2 ++ [t]) else kg2) = kg2 := by
            intro kg2 hm
            rw [if_neg]
            intro he
            apply hknotin
            rw [hk, ← he]
            exact List.mem_map_of_mem Prod.fst hm
          rw [List.map_congr_left htl]
          simp
        rw [e1, e2]
      · have h2 : key t ∈ rest.map Prod.fst := by
          rcases List.mem_cons.mp h with he | hm
          · exact absurd he.symm hk
          · exact hm
        have hnd2 : (rest.map Prod.fst).Nodup := by
          have h3 := hnd
          simp only [List.map_cons, List.nodup_cons] at h3
          exact h3.2
        have e1 : addTick key ((k, g) :: rest) t
            = (k, g) :: addTick key rest t := by
          simp only [addTick, if_neg hk]
        rw [e1, List.map_cons,
          if_neg (show ¬ ((k, g) : BucketKey × List Tick).1 = key t from hk),
          ih hnd2 h2]

/-- Routing a row with a fresh key opens a new group at the end. -/
theorem addTick_not_mem (key : Tick → BucketKey)
    (gs : List (BucketKey × List Tick)) (t : Tick)
    (h : key t ∉ gs.map Prod.fst) :
    addTick key gs t = gs ++ [(key t, [t])] := by
  induction gs with
  | nil => rfl
  | cons kg rest ih =>
      obtain ⟨k, g⟩ := kg
      have hk : k ≠ key t := by
        intro he
        exact h (he ▸ List.mem_cons_self _ _)
      have h2 : key t ∉ rest.map Prod.fst := fun hm => h (List.mem_cons_of_mem _ hm)
      simp only [addTick, if_neg hk, List.cons_append]
      rw [ih h2]

/-- First-appearance keys commute with filtering one key away. -/
theorem firstKeys_filter_ne (key : Tick → BucketKey) (k0 : BucketKey) :
    ∀ rows : List Tick,
      firstKeys key (rows.filter (fun t => key t != k0))
        = (firstKeys key rows).filter (fun k => k != k0)
  | [] => rfl
  | t :: ts => by
      have hfk : firstKeys key (t :: ts)
          = key t :: (firstKeys key ts).filter (fun k => k != key t) := rfl
      by_cases hk : key t = k0
      · have e1 : (t :: ts).filter (fun x => key x != k0)
            = ts.filter (fun x => key x != k0) := by
          rw [List.filter_cons, if_neg (by simp [hk])]
        rw [e1, firstKeys_filter_ne key k0 ts, hfk, List.filter_cons,
          if_neg (by simp [hk]), List.filter_filter]
        apply Eq.symm
        apply List.filter_congr
        intro a _
        rw [hk, Bool.and_self]
      · have e1 : (t :: ts).filter (fun x => key x != k0)
            = t :: ts.filter (fun x => key x != k0) := by
          rw [List.filter_cons, if_pos (by simp [hk])]
        have hfk2 : firstKeys key (t :: ts.filter (fun x => key x != k0))
            = key t :: (firstKeys key (ts.filter (fun x => key x != k0))).filter
                (fun k => k != key t) := rfl
        rw [e1, hfk2, firstKeys_filter_ne key k0 ts, hfk, List.filter_cons,
          if_pos (by simp [hk])]
        congr 1
        rw [List.filter_filter, List.filter_filter]
        apply List.filter_congr
        intro a _
        rw [Bool.and_comm]

/-- Closed form of the left-to-right grouping fold: existing groups are
extended by their matching rows, and the rows with fresh keys form the
reference groups appended behind. -/
theorem foldl_addTick_eq (key : Tick → BucketKey) :
    ∀ (rows : List Tick) (gs : List (BucketKey × List Tick)),
      (gs.map Prod.fst).Nodup →
      rows.foldl (addTick key) gs
        = gs.map (fun kg => (kg.1, kg.2 ++ rows.filter (fun t => key t == kg.1)))
          ++ groupsRef key
              (rows.filter (fun t => decide (key t ∉ gs.map Prod.fst)))
  | [], gs => by
      intro _
      simp [groupsRef, firstKeys]
  | t :: ts, gs => by
      intro hnd
      rw [List.foldl_cons]
      by_cases hmem : key t ∈ gs.map Prod.fst
      · have hkeys : (addTick key gs t).map Prod.fst = gs.map Prod.fst := by
          rw [addTick_mem key gs t hnd hmem, List.map_map]
          apply List.map_congr_left
          intro kg _
          by_cases hk : kg.1 = key t <;> simp [hk]
        have hnd2 : ((addTick key gs t).map Prod.fst).Nodup := by
          rw [hkeys]
          exact hnd
        rw [foldl_addTick_eq key ts (addTick key gs t) hnd2, hkeys]
        congr 1
        · rw [addTick_mem key gs t hnd hmem, List.map_map]
          apply List.map_congr_left
          intro kg _
          by_cases hk : kg.1 = key t
          · simp only [Function.comp_apply, if_pos hk, List.filter_cons]
            rw [if_pos (by simp [hk.symm])]
            simp [List.append_assoc]
          · simp only [Function.comp_apply, if_neg hk, List.filter_cons]
            rw [if_neg (by simp [Ne.symm hk])]
        · congr 1
          rw [List.filter_cons, if_neg (by simp [hmem])]
      · have hgs2 : addTick key gs t = gs ++ [(key t, [t])] :=
          addTick_not_mem key gs t hmem
        have hkeys : (addTick key gs t).map Prod.fst
            = gs.map Prod.fst ++ [key t] := by
          rw [hgs2, List.map_append]
          rfl
        have hnd2 : ((addTick key gs t).map Prod.fst).Nodup := by
          rw [hkeys, List.nodup_append]
          exact ⟨hnd, List.nodup_singleton _,
            fun a ha hb => hmem ((List.mem_singleton.mp hb) ▸ ha)⟩
        rw [foldl_addTick_eq key ts (addTick key gs t) hnd2, hgs2]
        have hkeys2 : (gs ++ [(key t, [t])]).map Prod.fst
            = gs.map Prod.fst ++ [key t] := by
          rw [List.map_append]
          rfl
        rw [hkeys2, List.map_append, List.append_assoc]
        congr 1
        · apply List.map_congr_left
          intro kg hm
          have hne : kg.1 ≠ key t := by
            intro he
            exact hmem (he ▸ List.mem_map_of_mem Prod.fst hm)
          rw [List.filter_cons, if_neg (by simp [Ne.symm hne])]
        · have hS : ts.filter (fun x => decide (key x ∉ gs.map Prod.fst ++ [key t]))
              = (ts.filter (fun x => decide (key x ∉ gs.map Prod.fst))).filter
                  (fun x => key x != key t) := by
            rw [List.filter_filter]
            apply List.filter_congr
            intro x _
            by_cases h1 : key x ∈ gs.map Prod.fst <;>
              by_cases h2 : key x = key t <;>
              simp [h1, h2]
          have hcons : (t :: ts).filter
                (fun x => decide (key x ∉ gs.map Prod.fst))
              = t :: ts.filter (fun x => decide (key x ∉ gs.map Prod.fst)) := by
            rw [List.filter_cons, if_pos (by simp [hmem])]
          rw [hS, hcons]
          set S := ts.filter (fun x => decide (key x ∉ gs.map Prod.fst)) with hSdef
          show ((key t, [t] ++ ts.filter (fun x => key x == key t))
              :: groupsRef key (S.filter (fun x => key x != key t)))
            = groupsRef key (t :: S)
          unfold groupsRef
          rw [show firstKeys key (t :: S)
              = key t :: (firstKeys key S).filter (fun k => k != key t) from rfl]
          rw [List.map_cons]
          congr 1
          · congr 1
            rw [List.filter_cons, if_pos (by simp), List.singleton_append]
            congr 1
            rw [hSdef, List.filter_filter]
            apply List.filter_congr
            intro x _
            by_cases h2 : key x = key t
            · rw [h2, decide_eq_true hmem, Bool.and_true]
            · simp [h2]
          · rw [firstKeys_filter_ne key (key t) S]
            apply List.map_congr_left
            intro k hk
            have hkne : k ≠ key t := by
              have h4 := List.of_mem_filter hk
              simpa using h4
            congr 1
            rw [List.filter_cons, if_neg (by simp [Ne.symm hkne]),
              List.filter_filter]
            apply List.filter_congr
            intro x _
            by_cases h2 : key x = k
            · simp [h2, hkne]
            · simp [h2]

/-- The operational order-maintaining group-by equals the reference
grouping by first-appearance keys. -/
theorem groupsOf_eq_groupsRef (key : Tick → BucketKey) (rows : List Tick) :
    groupsOf key rows = groupsRef key rows := by
  have h := foldl_addTick_eq key rows [] (by simp)
  simpa [groupsOf] using h

/-- Claim C9: the K-bar aggregation equals the reference definition
(group by truncated timestamp and code, groups in first-appearance
order, open=first, high=max, low=min, close=last, volume=sum), and
aggregating the same snapshot twice with the same bucket unit yields the
same bar sequence. -/
theorem aggregate_kbar_eq_reference (unit : Nat) (rows : List Tick) :
    aggregate_kbar unit rows = kbar_reference unit rows
    ∧ ∀ rows2, rows2 = rows → aggregate_kbar unit rows2 = aggregate_kbar unit rows := by
  refine ⟨?_, fun rows2 h => by rw [h]⟩
  unfold aggregate_kbar kbar_reference
  rw [groupsOf_eq_groupsRef]

/-- Claim C9 (witness): concrete evaluation of the equality on a
two-bucket snapshot. -/
theorem aggregate_kbar_eq_reference_witness :
    (aggregate_kbar 60 [⟨"A", 61, 10, 1, 1⟩, ⟨"A", 62, 12, 2, 1⟩, ⟨"A", 130, 9, 1, 1⟩]
      = kbar_reference 60 [⟨"A", 61, 10, 1, 1⟩, ⟨"A", 62, 12, 2, 1⟩, ⟨"A", 130, 9, 1, 1⟩])
    ∧ aggregate_kbar 60 [⟨"A", 61, 10, 1, 1⟩, ⟨"A", 62, 12, 2, 1⟩, ⟨"A", 130, 9, 1, 1⟩]
      = aggregate_kbar 60 [⟨"A", 61, 10, 1, 1⟩, ⟨"A", 62, 12, 2, 1⟩, ⟨"A", 130, 9, 1, 1⟩] :=
  ⟨(aggregate_kbar_eq_reference 60
      [⟨"A", 61, 10, 1, 1⟩, ⟨"A", 62, 12, 2, 1⟩, ⟨"A", 130, 9, 1, 1⟩]).1,
    (aggregate_kbar_eq_reference 60
      [⟨"A", 61, 10, 1, 1⟩, ⟨"A", 62, 12, 2, 1⟩, ⟨"A", 130, 9, 1, 1⟩]).2 _ rfl⟩

/-- Membership in an insertion step. -/
theorem mem_insort_ts (r a : RawTick) : ∀ l : List RawTick,
    (a ∈ insort_ts r l ↔ a = r ∨ a ∈ l)
  | [] => by simp [insort_ts]
  | x :: xs => by
      unfold insort_ts
      by_cases h : r.ts ≤ x.ts
      · rw [if_pos h]
        simp
      · rw [if_neg h]
        simp only [List.mem_cons, mem_insort_ts r a xs]
        tauto

/-- An insertion step permutes to a cons. -/
theorem insort_ts_perm (r : RawTick) : ∀ l : List RawTick,
    List.Perm (insort_ts r l) (r :: l)
  | [] => List.Perm.refl _
  | x :: xs => by
      unfold insort_ts
      by_cases h : r.ts ≤ x.ts
      · rw [if_pos h]
      · rw [if_neg h]
        exact ((insort_ts_perm r xs).cons x).trans (List.Perm.swap r x xs)

/-- Sorting permutes the input. -/
theorem sort_ts_perm : ∀ l : List RawTick, List.Perm (sort_ts l) l
  | [] => List.Perm.refl _
  | x :: xs => (insort_ts_perm x (sort_ts xs)).trans ((sort_ts_perm xs).cons x)

/-- Insertion preserves sortedness by timestamp. -/
theorem pairwise_insort_ts (r : RawTick) : ∀ l : List RawTick,
    List.Pairwise (fun a b => a.ts ≤ b.ts) l →
    List.Pairwise (fun a b => a.ts ≤ b.ts) (insort_ts r l)
  | [], _ => by simp [insort_ts]
  | x :: xs, h => by
      unfold insort_ts
      by_cases hle : r.ts ≤ x.ts
      · rw [if_pos hle]
        refine List.Pairwise.cons ?_ h
        intro b hb
        rcases List.mem_cons.mp hb with rfl | hb2
        · exact hle
        · exact hle.trans (List.rel_of_pairwise_cons h hb2)
      · rw [if_neg hle]
        refine List.Pairwise.cons ?_
          (pairwise_insort_ts r xs (List.Pairwise.of_cons h))
        intro b hb
        rcases (mem_insort_ts r b xs).mp hb with rfl | hb2
        · exact le_of_not_le hle
        · exact List.rel_of_pairwise_cons h hb2

/-- The sort step produces a series sorted by timestamp. -/
theorem sort_ts_pairwise : ∀ l : List RawTick,
    List.Pairwise (fun a b => a.ts ≤ b.ts) (sort_ts l)
  | [] => List.Pairwise.nil
  | x :: xs => pairwise_insort_ts x (sort_ts xs) (sort_ts_pairwise xs)

/-- `find?` is blind to filtering by a predicate implied by the search
predicate. -/
theorem find?_filter_of_imp (p q : RawTick → Bool)
    (himp : ∀ x, p x = true → q x = true) :
    ∀ l : List RawTick, (l.filter q).find? p = l.find? p
  | [] => rfl
  | x :: xs => by
      rw [List.filter_cons]
      by_cases hp : p x = true
      · rw [if_pos (himp x hp), List.find?_cons_of_pos _ hp,
          List.find?_cons_of_pos _ hp]
      · by_cases hq : q x = true
        · rw [if_pos hq, List.find?_cons_of_neg _ hp, List.find?_cons_of_neg _ hp]
          exact find?_filter_of_imp p q himp xs
        · rw [if_neg hq, List.find?_cons_of_neg _ hp]
          exact find?_filter_of_imp p q himp xs

/-- A row survives first-seen de-duplication exactly when it is the first
row of the input carrying its timestamp. -/
theorem mem_dedup_first_ts (r : RawTick) : ∀ l : List RawTick,
    (r ∈ dedup_first_ts l ↔ l.find? (fun x => x.ts == r.ts) = some r)
  | [] => by
      rw [dedup_first_ts]
      simp
  | x :: xs => by
      rw [dedup_first_ts]
      by_cases hx : x.ts = r.ts
      · rw [List.find?_cons_of_pos _ (by simp [hx])]
        constructor
        · intro hm
          rcases List.mem_cons.mp hm with rfl | hm2
          · rfl
          · have h2 := (mem_dedup_first_ts r _).mp hm2
            have h3 := List.mem_of_find?_eq_some h2
            have h4 := List.of_mem_filter h3
            simp [hx] at h4
        · intro he
          injection he with he
          rw [he]
          exact List.mem_cons_self _ _
      · rw [List.find?_cons_of_neg _ (by simp [hx])]
        have himp : ∀ y : RawTick,
            (y.ts == r.ts) = true → (y.ts != x.ts) = true := by
          intro y hy
          simp only [beq_iff_eq] at hy
          simp only [bne_iff_ne, ne_eq, hy]
          exact fun h => hx h.symm
        have heq := find?_filter_of_imp _ _ himp xs
        constructor
        · intro hm
          rcases List.mem_cons.mp hm with rfl | hm2
          · exact absurd rfl hx
          · rw [← heq]
            exact (mem_dedup_first_ts r _).mp hm2
        · intro hf
          apply List.mem_cons_of_mem
          apply (mem_dedup_first_ts r _).mpr
          rw [heq]
          exact hf
  termination_by l => l.length
  decreasing_by
    all_goals
      simp only [List.length_cons]
      exact Nat.lt_succ_of_le (List.length_filter_le _ _)

/-- First-seen de-duplication leaves pairwise distinct timestamps. -/
theorem dedup_first_ts_pairwise : ∀ l : List RawTick,
    List.Pairwise (fun a b => a.ts ≠ b.ts) (dedup_first_ts l)
  | [] => by
      rw [dedup_first_ts]
      exact List.Pairwise.nil
  | x :: xs => by
      rw [dedup_first_ts]
      refine List.Pairwise.cons ?_ (dedup_first_ts_pairwise _)
      intro b hb
      have h2 := (mem_dedup_first_ts b _).mp hb
      have h3 := List.mem_of_find?_eq_some h2
      have h4 := List.of_mem_filter h3
      simp only [bne_iff_ne, ne_eq] at h4
      exact fun he => h4 he.symm
  termination_by l => l.length
  decreasing_by
    simp only [List.length_cons]
    exact Nat.lt_succ_of_le (List.length_filter_le _ _)

/-- Claim C5: a second same-day fetch is issued exactly when the wall
clock is at or after 15:00 local and the main session is empty or ends
before the 15:00 cutoff; the result is always the merged frame mapped to
standard rows; when a second fetch was issued and returned data, the
merged frame is strictly sorted by timestamp and consists exactly of the
first-seen record for each timestamp of the two fetches (main first),
and the emitted rows are time-ordered; and when neither window has data,
the fetch returns an empty sequence rather than an error. -/
theorem fetch_ticks_night_session_policy (clock : Clock)
    (mainTicks nightTicks : List RawTick) (code : String) :
    ((fetch_ticks clock mainTicks nightTicks code).1 = true ↔
      (900 ≤ clock.minutesOfDay ∧
        (mainTicks = [] ∨ (mainTicks.getLastD ⟨0, 0, 0, 0⟩).ts < clock.cutoff)))
    ∧ ((fetch_ticks clock mainTicks nightTicks code).2
        = (fetch_merged clock mainTicks nightTicks).map (to_row code))
    ∧ ((fetch_ticks clock mainTicks nightTicks code).1 = true →
        nightTicks ≠ [] →
        (List.Pairwise (fun a b => a.ts < b.ts)
            (fetch_merged clock mainTicks nightTicks)
          ∧ (∀ r, r ∈ fetch_merged clock mainTicks nightTicks ↔
              (mainTicks ++ nightTicks).find? (fun x => x.ts == r.ts) = some r)
          ∧ List.Pairwise (fun a b => a.datetime ≤ b.datetime)
              (fetch_ticks clock mainTicks nightTicks code).2))
    ∧ (mainTicks = [] → nightTicks = [] →
        (fetch_ticks clock mainTicks nightTicks code).2 = []) := by
  have hmap : (fetch_ticks clock mainTicks nightTicks code).2
      = (fetch_merged clock mainTicks nightTicks).map (to_row code) := by
    show (if (fetch_merged clock mainTicks nightTicks).isEmpty then []
        else (fetch_merged clock mainTicks nightTicks).map (to_row code))
      = (fetch_merged clock mainTicks nightTicks).map (to_row code)
    by_cases he : (fetch_merged clock mainTicks nightTicks).isEmpty
    · rw [if_pos he, List.isEmpty_iff.mp he]
      rfl
    · rw [if_neg he]
  refine ⟨?_, hmap, ?_, ?_⟩
  · show (needs_night clock mainTicks = true ↔ _)
    unfold needs_night
    rw [Bool.and_eq_true, Bool.or_eq_true, decide_eq_true_eq, decide_eq_true_eq,
      List.isEmpty_iff]
    rw [Nat.le_div_iff_mul_le (by norm_num : 0 < 60)]
  · intro hissued hnight
    have hn : needs_night clock mainTicks = true := hissued
    have hmerge : fetch_merged clock mainTicks nightTicks
        = sort_ts (dedup_first_ts (mainTicks ++ nightTicks)) := by
      unfold fetch_merged
      rw [hn]
      have h2 : (true && !nightTicks.isEmpty) = true := by
        simp [List.isEmpty_iff, hnight]
      rw [h2, if_pos rfl, if_neg (by simp [List.isEmpty_iff, hnight])]
    have hsorted := sort_ts_pairwise (dedup_first_ts (mainTicks ++ nightTicks))
    have hperm := sort_ts_perm (dedup_first_ts (mainTicks ++ nightTicks))
    have hne : List.Pairwise (fun a b : RawTick => a.ts ≠ b.ts)
        (sort_ts (dedup_first_ts (mainTicks ++ nightTicks))) := by
      rw [List.Perm.pairwise_iff (fun {_ _} h => Ne.symm h) hperm]
      exact dedup_first_ts_pairwise _
    have hstrict : List.Pairwise (fun a b : RawTick => a.ts < b.ts)
        (fetch_merged clock mainTicks nightTicks) := by
      rw [hmerge]
      exact (hsorted.and hne).imp (fun h => lt_of_le_of_ne h.1 h.2)
    refine ⟨hstrict, ?_, ?_⟩
    · intro r
      rw [hmerge, hperm.mem_iff]
      exact mem_dedup_first_ts r (mainTicks ++ nightTicks)
    · rw [hmap]
      rw [List.pairwise_map]
      exact hstrict.imp
        (fun h => Nat.div_le_div_right (Nat.le_of_lt h))
  · intro hm hn
    subst hm
    subst hn
    rw [hmap]
    simp [fetch_merged]

/-- Claim C5 (witness): a 16:00 fetch whose main session ends before the
cutoff, with a night fetch that shares one timestamp with the main
session and adds a later one. -/
theorem fetch_ticks_night_session_policy_witness :
    ((fetch_ticks ⟨960, 1000000⟩ [⟨500, 10, 1, 1⟩]
        [⟨500, 10, 1, 1⟩, ⟨2000000, 11, 2, 1⟩] "A").1 = true)
    ∧ ([(⟨500, 10, 1, 1⟩ : RawTick), ⟨2000000, 11, 2, 1⟩] ≠ [])
    ∧ (List.Pairwise (fun a b => a.ts < b.ts)
          (fetch_merged ⟨960, 1000000⟩ [⟨500, 10, 1, 1⟩]
            [⟨500, 10, 1, 1⟩, ⟨2000000, 11, 2, 1⟩])
        ∧ (∀ r, r ∈ fetch_merged ⟨960, 1000000⟩ [⟨500, 10, 1, 1⟩]
              [⟨500, 10, 1, 1⟩, ⟨2000000, 11, 2, 1⟩] ↔
            (([⟨500, 10, 1, 1⟩] ++ [⟨500, 10, 1, 1⟩, ⟨2000000, 11, 2, 1⟩] :
                List RawTick)).find?
              (fun x => x.ts == r.ts) = some r)
        ∧ List.Pairwise (fun a b => a.datetime ≤ b.datetime)
            (fetch_ticks ⟨960, 1000000⟩ [⟨500, 10, 1, 1⟩]
              [⟨500, 10, 1, 1⟩, ⟨2000000, 11, 2, 1⟩] "A").2) :=
  ⟨by decide, by decide,
    (fetch_ticks_night_session_policy ⟨960, 1000000⟩ [⟨500, 10, 1, 1⟩]
      [⟨500, 10, 1, 1⟩, ⟨2000000, 11, 2, 1⟩] "A").2.2.1 (by decide) (by decide)⟩

/-- Unfolding of `_recover_ticks` on a nonempty history when the raw
buffer holds no tick for the code. -/
theorem recover_ticks_eq_nil (s : QMState) (c : String) (hist : List Tick)
    (hne : ¬ hist.isEmpty = true)
    (hct : s.pending.filter (fun u => u.code == c) = []) :
    recover_ticks s c hist = { s with df := s.df ++ hist } := by
  unfold recover_ticks
  rw [if_neg hne, hct]

/-- Unfolding of `_recover_ticks` on a nonempty history when the raw
buffer already holds live ticks for the code. -/
theorem recover_ticks_eq_cons (s : QMState) (c : String) (hist : List Tick)
    (t0 : Tick) (rest : List Tick) (hne : ¬ hist.isEmpty = true)
    (hct : s.pending.filter (fun u => u.code == c) = t0 :: rest) :
    recover_ticks s c hist
      = { s with df := s.df ++ hist.filter (fun r => r.datetime < t0.datetime) } := by
  unfold recover_ticks
  rw [if_neg hne, hct]

/-- The stored series of a state with extended DataFrame splits across
the three row sources. -/
theorem seriesFor_append (s : QMState) (H : List Tick) (code : String) :
    seriesFor { s with df := s.df ++ H } code
      = (s.df.filter (fun u => u.code == code)).map (fun u => u.datetime)
        ++ (H.filter (fun u => u.code == code)).map (fun u => u.datetime)
        ++ (s.pending.filter (fun u => u.code == code)).map (fun u => u.datetime) := by
  show (((s.df ++ H) ++ s.pending).filter (fun u => u.code == code)).map
      (fun u => u.datetime) = _
  rw [List.filter_append, List.filter_append, List.map_append, List.map_append]

/-- The stored series splits across DataFrame and raw buffer. -/
theorem seriesFor_split (s : QMState) (code : String) :
    seriesFor s code
      = (s.df.filter (fun u => u.code == code)).map (fun u => u.datetime)
        ++ (s.pending.filter (fun u => u.code == code)).map (fun u => u.datetime) := by
  show ((s.df ++ s.pending).filter (fun u => u.code == code)).map
      (fun u => u.datetime) = _
  rw [List.filter_append, List.map_append]

/-- A first-subscription recovery with a strictly sorted, correctly
tagged history keeps every per-instrument stored series strictly
increasing. -/
theorem seriesFor_recover (s : QMState) (c : String) (hist : List Tick)
    (hok : ∀ code, List.Pairwise (fun a b => a < b) (seriesFor s code))
    (hsorted : List.Pairwise (fun a b => a.datetime < b.datetime) hist)
    (hcodes : ∀ u ∈ hist, u.code = c)
    (hdfempty : s.df.filter (fun u => u.code == c) = []) :
    ∀ code, List.Pairwise (fun a b => a < b)
      (seriesFor (recover_ticks s c hist) code) := by
  intro code
  by_cases hhe : hist.isEmpty = true
  · unfold recover_ticks
    rw [if_pos hhe]
    exact hok code
  · have hmain : ∀ H : List Tick, (∀ u ∈ H, u ∈ hist) →
        List.Pairwise (fun a b => a < b)
          ((H.filter (fun u => u.code == code)).map (fun u => u.datetime)) →
        (∀ a ∈ (H.filter (fun u => u.code == code)).map (fun u => u.datetime),
          ∀ b ∈ (s.pending.filter (fun u => u.code == code)).map
            (fun u => u.datetime), a < b) →
        List.Pairwise (fun a b => a < b)
          (seriesFor { s with df := s.df ++ H } code) := by
      intro H hsub hHp hcross
      rw [seriesFor_append]
      by_cases hcc : code = c
      · subst hcc
        rw [hdfempty]
        rw [List.map_nil, List.nil_append, List.pairwise_append]
        refine ⟨hHp, ?_, hcross⟩
        have h0 := hok code
        rw [seriesFor_split, hdfempty, List.map_nil, List.nil_append] at h0
        exact h0
      · have hHnil : H.filter (fun u => u.code == code) = [] := by
          rw [List.filter_eq_nil_iff]
          intro u hu
          simp only [beq_iff_eq]
          rw [hcodes u (hsub u hu)]
          exact fun h => hcc h.symm
        rw [hHnil, List.map_nil, List.append_nil]
        have h0 := hok code
        rw [seriesFor_split] at h0
        exact h0
    cases hct : s.pending.filter (fun u => u.code == c) with
    | nil =>
        rw [recover_ticks_eq_nil s c hist hhe hct]
        refine hmain hist (fun u hu => hu) ?_ ?_
        · exact List.pairwise_map.mpr ((hsorted.filter _).imp (fun h => h))
        · intro a ha b hb
          by_cases hcc : code = c
          · subst hcc
            rw [hct] at hb
            simp at hb
          · rcases List.mem_map.mp ha with ⟨u, hu, rfl⟩
            have h2 := List.mem_filter.mp hu
            have h3 : u.code = code := by simpa using h2.2
            rw [hcodes u h2.1] at h3
            exact absurd h3.symm hcc
    | cons t0 rest =>
        rw [recover_ticks_eq_cons s c hist t0 rest hhe hct]
        have hpend : List.Pairwise (fun a b => a < b)
            ((s.pending.filter (fun u => u.code == c)).map (fun u => u.datetime)) := by
          have h0 := hok c
          rw [seriesFor_split, hdfempty, List.map_nil, List.nil_append] at h0
          exact h0
        refine hmain (hist.filter (fun r => r.datetime < t0.datetime))
          (fun u hu => List.mem_of_mem_filter hu) ?_ ?_
        · apply List.pairwise_map.mpr
          exact (((hsorted.filter _).filter _).imp (fun h => h))
        · intro a ha b hb
          by_cases hcc : code = c
          · subst hcc
            rcases List.mem_map.mp ha with ⟨u, hu, rfl⟩
            have hu2 := List.mem_filter.mp hu
            have hu3 := List.of_mem_filter hu2.1
            have hau : u.datetime < t0.datetime := by simpa using hu3
            rw [hct] at hb
            rcases List.mem_map.mp hb with ⟨v, hv, rfl⟩
            rcases List.mem_cons.mp hv with rfl | hv2
            · exact hau
            · refine hau.trans ?_
              have hp2 := hpend
              rw [hct, List.map_cons] at hp2
              exact List.rel_of_pairwise_cons hp2 (List.mem_map_of_mem _ hv2)
          · rcases List.mem_map.mp ha with ⟨u, hu, rfl⟩
            have h2 := List.mem_filter.mp hu
            have h3 : u.code = code := by simpa using h2.2
            have h4 := List.mem_of_mem_filter h2.1
            rw [hcodes u h4] at h3
            exact absurd h3.symm hcc

/-- One guarded event preserves strict per-instrument ordering of the
stored series. -/
theorem seriesOK_step (contracts : String → Option Unit) (s : QMState)
    (e : QMEvent)
    (hok : ∀ code, List.Pairwise (fun a b => a < b) (seriesFor s code))
    (hg : QMGuard s e) :
    ∀ code, List.Pairwise (fun a b => a < b)
      (seriesFor (qmStep contracts s e) code) := by
  cases e with
  | tick t =>
      intro code
      have hser : seriesFor (qmStep contracts s (QMEvent.tick t)) code
          = seriesFor s code ++
              ([t].filter (fun u => u.code == code)).map (fun u => u.datetime) := by
        show ((s.df ++ (s.pending ++ [t])).filter (fun u => u.code == code)).map
            (fun u => u.datetime) = _
        rw [← List.append_assoc, List.filter_append, List.map_append]
        rfl
      rw [hser]
      by_cases hc : t.code = code
      · have h1 : ([t].filter (fun u => u.code == code)).map (fun u => u.datetime)
            = [t.datetime] := by
          simp [hc]
        rw [h1, List.pairwise_append]
        refine ⟨hok code, List.pairwise_singleton _ _, ?_⟩
        intro a ha b hb
        rw [List.mem_singleton] at hb
        subst hb
        rcases List.mem_map.mp ha with ⟨u, hu, rfl⟩
        have h2 := List.mem_filter.mp hu
        have h3 : u.code = t.code := by
          have h4 : u.code = code := by simpa using h2.2
          rw [h4, hc]
        exact hg u h2.1 h3
      · have h1 : ([t].filter (fun u => u.code == code)).map (fun u => u.datetime)
            = [] := by
          simp [hc]
        rw [h1, List.append_nil]
        exact hok code
  | getDf =>
      intro code
      have hser : seriesFor (qmStep contracts s QMEvent.getDf) code
          = seriesFor s code := by
        show (((s.df ++ s.pending) ++ ([] : List Tick)).filter
            (fun u => u.code == code)).map (fun u => u.datetime) = _
        rw [List.append_nil]
        rfl
      rw [hser]
      exact hok code
  | subscribe c r hist =>
      intro code
      show List.Pairwise _ (seriesFor (subscribe_tick contracts s c r hist) code)
      unfold subscribe_tick
      by_cases hcond : contracts c = none ∨ c ∈ s.subscribed
      · rw [if_pos hcond]
        exact hok code
      · rw [if_neg hcond]
        cases r with
        | false =>
            simp only [Bool.false_eq_true, if_false]
            exact hok code
        | true =>
            rw [if_pos rfl]
            obtain ⟨hsortedH, hcodesH, hdfemptyH⟩ := hg rfl
            exact seriesFor_recover
              { s with gwSubscribeCalls := s.gwSubscribeCalls ++ [c],
                       subscribed := s.subscribed ++ [c] }
              c hist hok hsortedH hcodesH hdfemptyH code
  | unsubscribe c =>
      intro code
      have hser : seriesFor (qmStep contracts s (QMEvent.unsubscribe c)) code
          = seriesFor s code := by
        show seriesFor (unsubscribe_tick s c) code = seriesFor s code
        unfold unsubscribe_tick
        split <;> rfl
      rw [hser]
      exact hok code

/-- Strict per-instrument ordering is an invariant of guarded runs. -/
theorem seriesOK_run (contracts : String → Option Unit) (s : QMState)
    (es : List QMEvent) (h : GuardedRun contracts s es) :
    (∀ code, List.Pairwise (fun a b => a < b) (seriesFor s code)) →
    ∀ code, List.Pairwise (fun a b => a < b)
      (seriesFor (qmRun contracts s es) code) := by
  induction h with
  | nil s => exact fun hok => hok
  | cons s e es hg hrun ih => exact fun hok => ih (seriesOK_step contracts s e hok hg)

/-- Claim C1 (counterexample): the recovery filter consults only the raw
pending buffer, not rows already drained into the stored DataFrame, so
an unsubscribe followed by a re-subscription with recovery re-inserts
history that overlaps the already stored live rows: after the trace
below — subscribe "A", receive the live tick at time 10, drain it with
`get_df`, unsubscribe, and re-subscribe with recovery whose fetched
history is the strictly sorted, correctly tagged single row at time 10 —
the stored series of "A" is [10, 10]: it contains two rows with the same
timestamp after the backfill merge, and the recovered row is not placed
before the earliest already-buffered live timestamp. -/
theorem tick_series_resubscribe_duplicate :
    seriesFor (qmRun lookupAll initQM
        [QMEvent.subscribe "A" false [], QMEvent.tick ⟨"A", 10, 100, 1, 1⟩,
         QMEvent.getDf, QMEvent.unsubscribe "A",
         QMEvent.subscribe "A" true [⟨"A", 10, 100, 1, 1⟩]]) "A" = [10, 10]
    ∧ ¬ List.Pairwise (fun a b => a < b)
        (seriesFor (qmRun lookupAll initQM
          [QMEvent.subscribe "A" false [], QMEvent.tick ⟨"A", 10, 100, 1, 1⟩,
           QMEvent.getDf, QMEvent.unsubscribe "A",
           QMEvent.subscribe "A" true [⟨"A", 10, 100, 1, 1⟩]]) "A")
    ∧ List.Pairwise (fun a b => a.datetime < b.datetime)
        ([⟨"A", 10, 100, 1, 1⟩] : List Tick)
    ∧ (∀ u ∈ ([⟨"A", 10, 100, 1, 1⟩] : List Tick), u.code = "A") := by
  refine ⟨by decide, by decide, by decide, by decide⟩

/-- Claim C1 (amended): in every run in which live ticks arrive with a
timestamp strictly above everything already buffered for their
instrument and recovery happens only at an instrument first
subscription (no rows for the code in the stored DataFrame yet) with a
strictly time-sorted, correctly tagged history, every per-instrument
stored series (DataFrame rows followed by the pending raw buffer) has
strictly increasing timestamps — in particular it is non-decreasing with
no duplicate timestamps, and recovered rows all sit before the earliest
buffered live timestamp of their instrument. -/
theorem tick_series_strictly_increasing (contracts : String → Option Unit)
    (es : List QMEvent) (h : GuardedRun contracts initQM es) :
    ∀ code, List.Pairwise (fun a b => a < b)
      (seriesFor (qmRun contracts initQM es) code) :=
  seriesOK_run contracts initQM es h
    (fun _ => List.Pairwise.nil)

/-- Claim C1 (witness): a guarded run — first subscription with
recovery of a one-row history at time 5, a live tick at time 20, a
drain, and a live tick at time 30. -/
theorem tick_series_strictly_increasing_witness :
    List.Pairwise (fun a b => a < b)
      (seriesFor (qmRun lookupAll initQM
        [QMEvent.subscribe "A" true [⟨"A", 5, 99, 1, 1⟩],
         QMEvent.tick ⟨"A", 20, 100, 1, 1⟩, QMEvent.getDf,
         QMEvent.tick ⟨"A", 30, 101, 1, 1⟩]) "A") :=
  tick_series_strictly_increasing lookupAll
    [QMEvent.subscribe "A" true [⟨"A", 5, 99, 1, 1⟩],
     QMEvent.tick ⟨"A", 20, 100, 1, 1⟩, QMEvent.getDf,
     QMEvent.tick ⟨"A", 30, 101, 1, 1⟩]
    (GuardedRun.cons _ _ _ (by decide)
      (GuardedRun.cons _ _ _ (by decide)
        (GuardedRun.cons _ _ _ (by decide)
          (GuardedRun.cons _ _ _ (by decide)
            (GuardedRun.nil _))))) "A"

end FuturesTrade
